import Mathlib

/-!
Shallow embedding of the symbol-resolution engine of the magento2-ls
language server (`src/main.rs`).

Modelling conventions:
* A filesystem path (`PathBuf`) is a list of path components; `PathBuf::push`
  of one suffix segment appends one component.
* String maps (`HashMap<String, _>`) are association lists read through
  `mapGet` (first match wins); `HashMap::insert` is modelled by `mapInsert`,
  which prepends the new binding — observationally equivalent under `mapGet`
  to replace-on-insert.
* `class.split("\\")` is modelled by `splitSeg`, structural recursion over
  the character list, and `parts.join("\\")` by `joinSeg`.
* The `php` and `xml` modules of the crate are external collaborators here:
  the class parser and the reference extractor enter as function parameters,
  and their data shapes (`PHPClass`, `M2Item`) are modelled from the spec.
-/

/-- Zero-based line/column position (`lsp_types::Position`). -/
structure Pos where
  line : Nat
  character : Nat
deriving DecidableEq, Repr

/-- A span within a file (`lsp_types::Range`). -/
structure SrcRange where
  start : Pos
  stop : Pos
deriving DecidableEq, Repr

/-- Modelled from the spec: a Symbol is a member name plus its source range
(the `php` module defining the method/constant entries is not under `src/`;
`main.rs` reads only the `.range` field of these entries). -/
structure MemberSymbol where
  name : String
  range : SrcRange
deriving DecidableEq, Repr

/-- A filesystem path as a list of components (`std::path::PathBuf`). -/
abbrev FsPath := List String

/-- Modelled from the spec: the Symbol Table of one parsed class
(`php::PHPClass`, whose definition is not under `src/`); `main.rs` uses its
`uri`, `range`, `methods` and `constants` fields. -/
structure PHPClass where
  uri : String
  range : SrcRange
  methods : List (String × MemberSymbol)
  constants : List (String × MemberSymbol)
deriving DecidableEq, Repr

/-- The server state (`struct Indexer` in `main.rs`): the memoizing class
cache and the module registry. -/
structure Indexer where
  php_classes : List (String × PHPClass)
  magento_modules : List (String × FsPath)
deriving DecidableEq, Repr

/-- Models `HashMap::get` on the association-list representation: the first
binding for the key wins. -/
def mapGet {α : Type} : List (String × α) → String → Option α
  | [], _ => none
  | (k, v) :: rest, key => if k = key then some v else mapGet rest key

/-- Models `HashMap::insert` on the association-list representation: prepend
the binding,
which shadows any older binding for the same key under `mapGet`. -/
def mapInsert {α : Type} (m : List (String × α)) (k : String) (v : α) :
    List (String × α) :=
  (k, v) :: m

/-- Split a character list on the backslash separator
(`class.split("\\")` in `get_module_path`). -/
def splitSegAux : List Char → List (List Char)
  | [] => [[]]
  | c :: rest =>
    if c = '\\' then [] :: splitSegAux rest
    else
      match splitSegAux rest with
      | [] => [[c]]
      | s :: ss => (c :: s) :: ss

/-- Models `class.split("\\").collect::<Vec<_>>()` as a list of segments. -/
def splitSeg (s : String) : List String :=
  (splitSegAux s.data).map fun l => String.mk l

/-- Models `parts.join("\\")` (Rust `Vec::join` on string slices). -/
def joinSeg : List String → String
  | [] => ""
  | [s] => s
  | s :: rest => s ++ "\\" ++ joinSeg rest

/-- The loop of `get_module_path` (`main.rs` lines 105–116).  The argument
`revParts` is the not-yet-popped segments in reversed order (Rust pops from
the end of the vector); `acc` is the suffix accumulated so far, already in
the final left-to-right order (`main.rs` reverses its accumulator just
before returning, which consing reproduces). -/
def gmpGo (reg : List (String × FsPath)) :
    List String → List String → Option (FsPath × List String)
  | [], _ => none
  | p :: rest, acc =>
    match mapGet reg (joinSeg rest.reverse) with
    | some modPath => some (modPath, p :: acc)
    | none => gmpGo reg rest (p :: acc)

/-- Models `get_module_path` (`main.rs` lines 101–119): pop trailing segments one
at a time, looking the remaining leading segments up in the module registry;
on the first hit return the module directory and the popped suffix in
original order. -/
def get_module_path (index : Indexer) (cls : String) :
    Option (FsPath × List String) :=
  gmpGo index.magento_modules (splitSeg cls).reverse []

/-- The characters strictly before the last `'.'` of a file-name component,
or `none` when the component has no dot.  Helper for the `PathBuf`
file-stem/extension rule. -/
def beforeLastDot : List Char → Option (List Char)
  | [] => none
  | c :: rest =>
    match beforeLastDot rest with
    | some pre => some (c :: pre)
    | none => if c = '.' then some [] else none

/-- Models `PathBuf::set_extension("php")` applied to one file-name component:
replace the portion after the last dot by `php`, except that a lone leading
dot is not an extension separator (Rust file-stem rule), in which case
`.php` is appended. -/
def setExtComp (s : String) : String :=
  match beforeLastDot s.data with
  | none => s ++ ".php"
  | some [] => s ++ ".php"
  | some pre => String.mk pre ++ ".php"

/-- Models `file_path.set_extension("php")` on the list-of-components path:
rewrite the last component with `setExtComp`. -/
def setExtLast : FsPath → FsPath
  | [] => []
  | [x] => [setExtComp x]
  | x :: xs => x :: setExtLast xs

/-- The candidate class-file path built inside
`get_php_class_from_class_name` (`main.rs` lines 127–131): push every suffix
segment onto the module directory, then force the `.php` extension. -/
def candidate_file_path (modPath : FsPath) (suffix : List String) : FsPath :=
  setExtLast (modPath ++ suffix)

/-- The filesystem and class-parser boundary of
`get_php_class_from_class_name`.  `tryExists p = true` models
`p.try_exists() == Ok(true)` (any other result takes the failure branch).
`parse_php_file` is modelled from the spec: the Class Parser contract
`parse(file_path) -> Symbol Table | failure` (its `php` module is not under
`src/`). -/
structure FileSystem where
  tryExists : FsPath → Bool
  parse_php_file : FsPath → Option PHPClass

/-- Models `get_php_class_from_class_name` (`main.rs` lines 121–148): return the
cached Symbol Table if present; otherwise resolve the module path, build the
candidate file (push each suffix segment, then force the `.php` extension),
and if the file exists and parses, cache and return the result.  The mutated
`&mut Indexer` is modelled by returning the new state. -/
def get_php_class_from_class_name (fs : FileSystem) (index : Indexer)
    (cls : String) : Option PHPClass × Indexer :=
  match mapGet index.php_classes cls with
  | some phpclass => (some phpclass, index)
  | none =>
    match get_module_path index cls with
    | none => (none, index)
    | some (modPath, suffix) =>
      let file_path := candidate_file_path modPath suffix
      if fs.tryExists file_path then
        match fs.parse_php_file file_path with
        | none => (none, index)
        | some phpclass =>
          (some phpclass,
           { index with
             php_classes := mapInsert index.php_classes cls phpclass })
      else (none, index)

/-- Modelled from the spec: the tagged Reference Query produced by a
Reference Extractor (the crate's `M2Item`, declared outside `src/`): a bare
class reference, a (class, method) pair, or a (class, constant) pair. -/
inductive M2Item where
  | Class (cls : String)
  | Method (cls : String) (method : String)
  | Const (cls : String) (constant : String)
deriving DecidableEq, Repr

/-- A resolved definition location (`lsp_types::Location`). -/
structure Location where
  uri : String
  range : SrcRange
deriving DecidableEq, Repr

/-- The (document, position) pair of a definition query
(`lsp_types::GotoDefinitionParams`). -/
structure GotoDefinitionParams where
  uri : String
  pos : Pos
deriving DecidableEq, Repr

/-- The Reference Extractor boundary: `xml::get_item_from_position`, whose
module is not under `src/`; modelled from the spec contract
`extract(document_uri, position) -> Reference Query | none`. -/
abbrev Extractor := String → Pos → Option M2Item

/-- Models `get_location_from_params` (`main.rs` lines 150–189): extract the
reference under the cursor, resolve its class through the Class Index,
re-insert the result, and apply the member-fallback policy for methods and
constants. -/
def get_location_from_params (fs : FileSystem) (xmlGetItem : Extractor)
    (index : Indexer) (params : GotoDefinitionParams) :
    Option Location × Indexer :=
  match xmlGetItem params.uri params.pos with
  | some (M2Item.Class cls) =>
    match get_php_class_from_class_name fs index cls with
    | (none, idx) => (none, idx)
    | (some phpclass, idx) =>
      let idx := { idx with
                   php_classes := mapInsert idx.php_classes cls phpclass }
      (some { uri := phpclass.uri, range := phpclass.range }, idx)
  | some (M2Item.Method cls method) =>
    match get_php_class_from_class_name fs index cls with
    | (none, idx) => (none, idx)
    | (some phpclass, idx) =>
      let idx := { idx with
                   php_classes := mapInsert idx.php_classes cls phpclass }
      (some { uri := phpclass.uri,
              range :=
                match mapGet phpclass.methods method with
                | some m => m.range
                | none => phpclass.range }, idx)
  | some (M2Item.Const cls constant) =>
    match get_php_class_from_class_name fs index cls with
    | (none, idx) => (none, idx)
    | (some phpclass, idx) =>
      let idx := { idx with
                   php_classes := mapInsert idx.php_classes cls phpclass }
      (some { uri := phpclass.uri,
              range :=
                match mapGet phpclass.constants constant with
                | some m => m.range
                | none => phpclass.range }, idx)
  | none => (none, index)

/-- The response payload built for one `GotoDefinition` request
(`main.rs` lines 72–81): `result` is always `Some` array, `error` is always
`None`. -/
structure LspResponse where
  result : Option (List Location)
  error : Option String
deriving DecidableEq, Repr

/-- The `GotoDefinition` arm of `main_loop` (`main.rs` lines 69–83): wrap
the dispatcher's optional location as a one-element or empty array inside a
successful response. -/
def handle_goto_definition (fs : FileSystem) (xmlGetItem : Extractor)
    (index : Indexer) (params : GotoDefinitionParams) :
    LspResponse × Indexer :=
  match get_location_from_params fs xmlGetItem index params with
  | (some loc, idx) => ({ result := some [loc], error := none }, idx)
  | (none, idx) => ({ result := some [], error := none }, idx)

/-! Helper lemmas about the resolver loop and the class index. -/

theorem mapGet_mapInsert_self {α : Type} (m : List (String × α)) (k : String)
    (v : α) : mapGet (mapInsert m k v) k = some v := by
  simp [mapInsert, mapGet]

/-- Characterisation of a successful run of the `get_module_path` loop:
some positive number `k` of segments was popped, the suffix is those `k`
segments (in final order) in front of the accumulator, the remaining leading
segments are registered, and every strictly smaller positive number of pops
produced an unregistered candidate. -/
theorem gmpGo_eq_some (reg : List (String × FsPath)) :
    ∀ (rp acc : List String) (d : FsPath) (out : List String),
      gmpGo reg rp acc = some (d, out) →
      ∃ k, 1 ≤ k ∧ k ≤ rp.length ∧
        out = (rp.take k).reverse ++ acc ∧
        mapGet reg (joinSeg (rp.drop k).reverse) = some d ∧
        ∀ j, 1 ≤ j → j < k →
          mapGet reg (joinSeg (rp.drop j).reverse) = none := by
  intro rp
  induction rp with
  | nil => intro acc d out h; simp [gmpGo] at h
  | cons p rest ih =>
    intro acc d out h
    simp only [gmpGo] at h
    cases hm : mapGet reg (joinSeg rest.reverse) with
    | some d' =>
      rw [hm] at h
      simp only [Option.some.injEq, Prod.mk.injEq] at h
      obtain ⟨hd, hout⟩ := h
      refine ⟨1, le_refl 1, by simp, ?_, ?_, ?_⟩
      · simpa using hout.symm
      · simpa [hd] using hm
      · intro j hj1 hj2; omega
    | none =>
      rw [hm] at h
      obtain ⟨k, hk1, hk2, hout, hget, hmin⟩ := ih (p :: acc) d out h
      refine ⟨k + 1, by omega, by simp; omega, ?_, ?_, ?_⟩
      · rw [List.take_succ_cons, hout]; simp
      · simpa using hget
      · intro j hj1 hj2
        cases j with
        | zero => omega
        | succ j' =>
          simp only [List.drop_succ_cons]
          rcases Nat.eq_zero_or_pos j' with h0 | hpos
          · subst h0; simpa using hm
          · exact hmin j' hpos (by omega)

/-- A successful run of the `get_module_path` loop always pops at least one
segment, so the returned suffix is never empty. -/
theorem gmpGo_suffix_ne_nil (reg : List (String × FsPath)) :
    ∀ (rp acc : List String) (d : FsPath) (out : List String),
      gmpGo reg rp acc = some (d, out) → out ≠ [] := by
  intro rp
  induction rp with
  | nil => intro acc d out h; simp [gmpGo] at h
  | cons p rest ih =>
    intro acc d out h
    simp only [gmpGo] at h
    cases hm : mapGet reg (joinSeg rest.reverse) with
    | some d' =>
      rw [hm] at h
      simp only [Option.some.injEq, Prod.mk.injEq] at h
      exact h.2 ▸ List.cons_ne_nil _ _
    | none =>
      rw [hm] at h
      exact ih (p :: acc) d out h

theorem setExtLast_concat :
    ∀ (s : FsPath) (x : String), setExtLast (s ++ [x]) = s ++ [setExtComp x]
  | [], _ => rfl
  | [_], _ => rfl
  | a :: b :: s, x => congrArg (List.cons a) (setExtLast_concat (b :: s) x)

/-- A cache hit in `get_php_class_from_class_name` returns the cached table
and leaves the state untouched, for any filesystem. -/
theorem get_php_class_cache_hit (fs : FileSystem) (index : Indexer)
    (n : String) (p : PHPClass) (h : mapGet index.php_classes n = some p) :
    get_php_class_from_class_name fs index n = (some p, index) := by
  unfold get_php_class_from_class_name
  rw [h]

/-- After any successful resolution, the returned state caches the returned
Symbol Table under the queried name. -/
theorem get_php_class_success_cached (fs : FileSystem) (index idx : Indexer)
    (n : String) (p : PHPClass)
    (h : get_php_class_from_class_name fs index n = (some p, idx)) :
    mapGet idx.php_classes n = some p := by
  unfold get_php_class_from_class_name at h
  cases hc : mapGet index.php_classes n with
  | some q =>
    rw [hc] at h
    simp only [Option.some.injEq, Prod.mk.injEq] at h
    rw [← h.2, hc, h.1]
  | none =>
    rw [hc] at h
    cases hm : get_module_path index n with
    | none => rw [hm] at h; simp at h
    | some pr =>
      obtain ⟨mp, suf⟩ := pr
      rw [hm] at h
      simp only at h
      cases he : fs.tryExists (candidate_file_path mp suf) with
      | false => rw [he] at h; simp at h
      | true =>
        rw [he] at h
        simp only [if_true] at h
        cases hp : fs.parse_php_file (candidate_file_path mp suf) with
        | none => rw [hp] at h; simp at h
        | some q =>
          rw [hp] at h
          simp only [Option.some.injEq, Prod.mk.injEq] at h
          rw [← h.2]
          simpa using (mapGet_mapInsert_self index.php_classes n q).trans
            (by rw [h.1])

/-- Resolution never touches the module registry part of the state. -/
theorem get_php_class_modules_frame (fs : FileSystem) (index : Indexer)
    (n : String) :
    ((get_php_class_from_class_name fs index n).2).magento_modules
      = index.magento_modules := by
  unfold get_php_class_from_class_name
  cases hc : mapGet index.php_classes n with
  | some q => rfl
  | none =>
    cases hm : get_module_path index n with
    | none => rfl
    | some pr =>
      obtain ⟨mp, suf⟩ := pr
      simp only
      cases he : fs.tryExists (candidate_file_path mp suf) with
      | false => simp
      | true =>
        simp only [if_true]
        cases hp : fs.parse_php_file (candidate_file_path mp suf) with
        | none => rfl
        | some q => rfl

/-! Concrete fixtures used by witnesses and counterexamples. -/

def demoModuleDir : FsPath := ["app", "code", "Vendor", "Module"]

def demoBlockDir : FsPath := ["app", "code", "Vendor", "Module", "Block"]

/-- A registry with both `Vendor\Module` and `Vendor\Module\Block`
registered, as in the longest-prefix test of the spec. -/
def demoIndexer : Indexer :=
  ⟨[], [("Vendor\\Module", demoModuleDir),
        ("Vendor\\Module\\Block", demoBlockDir)]⟩

def wClass : PHPClass :=
  ⟨"file:///a/Helper.php", ⟨⟨3, 0⟩, ⟨40, 1⟩⟩,
   [("getName", ⟨"getName", ⟨⟨10, 4⟩, ⟨13, 5⟩⟩⟩)], []⟩

/-- A filesystem on which every candidate file exists and parses to
`wClass`. -/
def wFsLive : FileSystem := ⟨fun _ => true, fun _ => some wClass⟩

/-- A filesystem on which no file exists (every backing file deleted). -/
def wFsDeleted : FileSystem := ⟨fun _ => false, fun _ => none⟩

def wIdx0 : Indexer := ⟨[], [("Vendor\\Module", ["app"])]⟩

def wIdx1 : Indexer :=
  ⟨[("Vendor\\Module\\Helper", wClass)], [("Vendor\\Module", ["app"])]⟩

def wIdx2 : Indexer :=
  ⟨[("Vendor\\Module\\Helper", wClass), ("Vendor\\Module\\Helper", wClass)],
   [("Vendor\\Module", ["app"])]⟩

/-- An extractor reporting a method reference whose method name is absent
from `wClass`. -/
def wXmlMethodMiss : Extractor :=
  fun _ _ => some (M2Item.Method "Vendor\\Module\\Helper" "missingMethod")

def wParams : GotoDefinitionParams := ⟨"file:///view.xml", ⟨5, 7⟩⟩

/-! Claim theorems. -/

/-- Claim C1: the Namespace Resolver returns the match obtained by removing
the fewest (but at least one) trailing segments — the matched leading
segments are registered and every longer candidate obtained by removing
fewer trailing segments is unregistered; in particular, with both
`Vendor\Module` and `Vendor\Module\Block` registered, resolving
`Vendor\Module\Block\Widget` returns the `Vendor\Module\Block` mapping. -/
theorem namespace_resolver_longest_prefix_priority :
    (∀ (index : Indexer) (cls : String) (d : FsPath) (suffix : List String),
      get_module_path index cls = some (d, suffix) →
      1 ≤ suffix.length ∧ suffix.length ≤ (splitSeg cls).length ∧
      suffix = (splitSeg cls).drop ((splitSeg cls).length - suffix.length) ∧
      mapGet index.magento_modules
          (joinSeg ((splitSeg cls).take
            ((splitSeg cls).length - suffix.length)))
        = some d ∧
      ∀ j, 1 ≤ j → j < suffix.length →
        mapGet index.magento_modules
            (joinSeg ((splitSeg cls).take ((splitSeg cls).length - j)))
          = none)
    ∧ get_module_path demoIndexer "Vendor\\Module\\Block\\Widget"
        = some (demoBlockDir, ["Widget"]) := by
  constructor
  · intro index cls d suffix h
    unfold get_module_path at h
    obtain ⟨k, hk1, hk2, hout, hget, hmin⟩ :=
      gmpGo_eq_some index.magento_modules (splitSeg cls).reverse [] d suffix h
    rw [List.length_reverse] at hk2
    have hlen : suffix.length = k := by
      rw [hout]; simp [List.length_take, List.length_reverse]; omega
    have hrev_take : ((splitSeg cls).reverse.take k).reverse
        = (splitSeg cls).drop ((splitSeg cls).length - k) := by
      rw [← List.rtake_eq_reverse_take_reverse]; rfl
    have hrev_drop : ∀ j, ((splitSeg cls).reverse.drop j).reverse
        = (splitSeg cls).take ((splitSeg cls).length - j) := by
      intro j; rw [← List.rdrop_eq_reverse_drop_reverse]; rfl
    refine ⟨by omega, by omega, ?_, ?_, ?_⟩
    · rw [hlen, hout, ← hrev_take]; simp
    · rw [hlen, ← hrev_drop k]; exact hget
    · intro j hj1 hj2
      rw [hlen] at hj2
      rw [← hrev_drop j]
      exact hmin j hj1 hj2
  · decide

/-- Witness for C1 at the spec's own example: the mapping returned for
`Vendor\Module\Block\Widget` is the one registered for the longest prefix. -/
theorem namespace_resolver_longest_prefix_priority_witness :
    mapGet demoIndexer.magento_modules
        (joinSeg ((splitSeg "Vendor\\Module\\Block\\Widget").take
          ((splitSeg "Vendor\\Module\\Block\\Widget").length
            - (["Widget"] : List String).length)))
      = some demoBlockDir :=
  (namespace_resolver_longest_prefix_priority.1 demoIndexer
    "Vendor\\Module\\Block\\Widget" demoBlockDir ["Widget"]
    (by decide)).2.2.2.1

/-- Counterexample to claim C5: with exactly `Vendor\Module` registered,
resolving the name `Vendor\Module` itself fails — the resolver pops a
segment before forming its first candidate, so a name equal to a registered
prefix never matches itself. -/
theorem self_registered_name_fails_counterexample :
    get_module_path
        ⟨[], [("Vendor\\Module", ["app", "code", "Vendor", "Module"])]⟩
        "Vendor\\Module" = none := by
  decide

/-- Claim C5 as amended: the Namespace Resolver matches only proper
ancestors — every successful resolution strips at least one trailing
segment, so a name that is itself a registered prefix is never matched
with an empty suffix and resolving it fails unless a shorter registered
prefix is a proper ancestor. -/
theorem namespace_resolver_proper_ancestors_only :
    ∀ (index : Indexer) (cls : String) (d : FsPath) (suffix : List String),
      get_module_path index cls = some (d, suffix) → suffix ≠ [] := by
  intro index cls d suffix h
  unfold get_module_path at h
  exact gmpGo_suffix_ne_nil index.magento_modules _ _ _ _ h

/-- Witness for the amended C5: a successful resolution with a nonempty
stripped suffix. -/
theorem namespace_resolver_proper_ancestors_only_witness :
    get_module_path demoIndexer "Vendor\\Module\\Block\\Widget"
        = some (demoBlockDir, ["Widget"]) ∧ (["Widget"] : List String) ≠ [] :=
  ⟨by decide,
   namespace_resolver_proper_ancestors_only demoIndexer
     "Vendor\\Module\\Block\\Widget" demoBlockDir ["Widget"] (by decide)⟩

/-- Claim C3: the candidate file path joins the suffix segments, in order,
under the module directory and then forces the `.php` extension on the last
segment, replacing an already-present extension rather than appending: a
final segment `Foo.bar` yields `Foo.php`, not `Foo.bar.php`. -/
theorem candidate_path_extension_replacement :
    (∀ (index : Indexer) (cls : String) (modPath : FsPath)
       (suffix : List String),
      get_module_path index cls = some (modPath, suffix) →
      ∃ pre last, suffix = pre ++ [last] ∧
        candidate_file_path modPath suffix
          = modPath ++ pre ++ [setExtComp last])
    ∧ setExtComp "Foo.bar" = "Foo.php"
    ∧ candidate_file_path ["app"] ["Block", "Foo.bar"]
        = ["app", "Block", "Foo.php"] := by
  refine ⟨?_, by decide, by decide⟩
  intro index cls modPath suffix h
  have hne : suffix ≠ [] := by
    unfold get_module_path at h
    exact gmpGo_suffix_ne_nil index.magento_modules _ _ _ _ h
  rcases List.eq_nil_or_concat suffix with h0 | ⟨pre, lst, hsuf⟩
  · exact absurd h0 hne
  · rw [List.concat_eq_append] at hsuf
    refine ⟨pre, lst, hsuf, ?_⟩
    rw [hsuf]
    unfold candidate_file_path
    rw [← List.append_assoc, setExtLast_concat]

/-- Witness for C3 on a suffix whose last segment carries a spurious
extension. -/
theorem candidate_path_extension_replacement_witness :
    ∃ pre last, (["Block", "Foo.bar"] : List String) = pre ++ [last] ∧
      candidate_file_path ["app"] ["Block", "Foo.bar"]
        = ["app"] ++ pre ++ [setExtComp last] :=
  candidate_path_extension_replacement.1
    ⟨[], [("Vendor\\Module", ["app"])]⟩ "Vendor\\Module\\Block\\Foo.bar"
    ["app"] ["Block", "Foo.bar"] (by decide)

/-- Claim C2: the Class Index is memoizing — a cached name is answered from
the cache alone, with the state unchanged and for an arbitrary filesystem
(so no filesystem or parse work can influence the answer); consequently,
after a successful resolution, resolving the same name again on any
filesystem — including one where the backing file was deleted — returns the
identical Symbol Table and state. -/
theorem class_index_memoization :
    (∀ (fs : FileSystem) (index : Indexer) (n : String) (p : PHPClass),
      mapGet index.php_classes n = some p →
      get_php_class_from_class_name fs index n = (some p, index)) ∧
    (∀ (fs fs2 : FileSystem) (index idx : Indexer) (n : String)
       (p : PHPClass),
      get_php_class_from_class_name fs index n = (some p, idx) →
      get_php_class_from_class_name fs2 idx n = (some p, idx)) :=
  ⟨get_php_class_cache_hit,
   fun fs fs2 index idx n p h =>
     get_php_class_cache_hit fs2 idx n p
       (get_php_class_success_cached fs index idx n p h)⟩

/-- Witness for C2: resolve a class on a live filesystem, then resolve it
again on a filesystem where every file is deleted — the identical Symbol
Table comes back. -/
theorem class_index_memoization_witness :
    get_php_class_from_class_name wFsLive wIdx0 "Vendor\\Module\\Helper"
        = (some wClass, wIdx1) ∧
    get_php_class_from_class_name wFsDeleted wIdx1 "Vendor\\Module\\Helper"
        = (some wClass, wIdx1) :=
  ⟨by decide,
   class_index_memoization.2 wFsLive wFsDeleted wIdx0 wIdx1
     "Vendor\\Module\\Helper" wClass (by decide)⟩

/-- Claim C7: the class cache holds only successes — whenever resolution
returns no Symbol Table (no registered ancestor prefix, candidate file
missing, or parse failure), the state is left unchanged. -/
theorem class_cache_holds_only_successes :
    ∀ (fs : FileSystem) (index : Indexer) (n : String),
      (get_php_class_from_class_name fs index n).1 = none →
      (get_php_class_from_class_name fs index n).2 = index := by
  intro fs index n h
  unfold get_php_class_from_class_name at h ⊢
  cases hc : mapGet index.php_classes n with
  | some q => simp [hc] at h
  | none =>
    cases hm : get_module_path index n with
    | none => simp [hc, hm]
    | some pr =>
      obtain ⟨mp, suf⟩ := pr
      cases he : fs.tryExists (candidate_file_path mp suf) with
      | false => simp [hc, hm, he]
      | true =>
        cases hp : fs.parse_php_file (candidate_file_path mp suf) with
        | none => simp [hc, hm, he, hp]
        | some q => simp [hc, hm, he, hp] at h

/-- Witness for C7: a query whose candidate file does not exist leaves the
state untouched. -/
theorem class_cache_holds_only_successes_witness :
    (get_php_class_from_class_name wFsDeleted wIdx0
      "Vendor\\Module\\Helper").2 = wIdx0 :=
  class_cache_holds_only_successes wFsDeleted wIdx0 "Vendor\\Module\\Helper"
    (by decide)

/-- The dispatcher never changes the module registry part of the state. -/
theorem get_location_modules_frame (fs : FileSystem) (x : Extractor)
    (index : Indexer) (params : GotoDefinitionParams) :
    ((get_location_from_params fs x index params).2).magento_modules
      = index.magento_modules := by
  unfold get_location_from_params
  cases hx : x params.uri params.pos with
  | none => rfl
  | some item =>
    cases item with
    | Class c =>
      have hm := get_php_class_modules_frame fs index c
      dsimp only
      split
      · next idx heq => rw [heq] at hm; simpa using hm
      · next phpclass idx heq => rw [heq] at hm; simpa using hm
    | Method c mem =>
      have hm := get_php_class_modules_frame fs index c
      dsimp only
      split
      · next idx heq => rw [heq] at hm; simpa using hm
      · next phpclass idx heq => rw [heq] at hm; simpa using hm
    | Const c mem =>
      have hm := get_php_class_modules_frame fs index c
      dsimp only
      split
      · next idx heq => rw [heq] at hm; simpa using hm
      · next phpclass idx heq => rw [heq] at hm; simpa using hm

/-- Claim C4: for a method reference whose class resolves, the returned
range is the method's range when the method name is a key of the class's
method mapping, and the class's overall range otherwise (fallback, not a
failure); the same holds for constant references through the constant
mapping. -/
theorem member_fallback_policy :
    ∀ (fs : FileSystem) (x : Extractor) (index idx : Indexer)
      (params : GotoDefinitionParams) (c mem : String) (p : PHPClass),
      get_php_class_from_class_name fs index c = (some p, idx) →
      ((x params.uri params.pos = some (M2Item.Method c mem) →
        (∀ s, mapGet p.methods mem = some s →
          (get_location_from_params fs x index params).1
            = some { uri := p.uri, range := s.range }) ∧
        (mapGet p.methods mem = none →
          (get_location_from_params fs x index params).1
            = some { uri := p.uri, range := p.range })) ∧
       (x params.uri params.pos = some (M2Item.Const c mem) →
        (∀ s, mapGet p.constants mem = some s →
          (get_location_from_params fs x index params).1
            = some { uri := p.uri, range := s.range }) ∧
        (mapGet p.constants mem = none →
          (get_location_from_params fs x index params).1
            = some { uri := p.uri, range := p.range }))) := by
  intro fs x index idx params c mem p hres
  constructor
  · intro hx
    constructor
    · intro s hs
      simp [get_location_from_params, hx, hres, hs]
    · intro hs
      simp [get_location_from_params, hx, hres, hs]
  · intro hx
    constructor
    · intro s hs
      simp [get_location_from_params, hx, hres, hs]
    · intro hs
      simp [get_location_from_params, hx, hres, hs]

/-- Witness for C4: a method reference with an unknown method name on a
resolvable class falls back to the class's overall range. -/
theorem member_fallback_policy_witness :
    (get_location_from_params wFsDeleted wXmlMethodMiss wIdx1 wParams).1
      = some { uri := wClass.uri, range := wClass.range } :=
  ((member_fallback_policy wFsDeleted wXmlMethodMiss wIdx1 wIdx1 wParams
      "Vendor\\Module\\Helper" "missingMethod" wClass (by decide)).1
    (by decide)).2 (by decide)

/-- Every resolution failure of the dispatched class — which is how
LookupMiss, FileMissing and ParseFailure all manifest — makes the
dispatcher return no location. -/
theorem get_location_none_of_class_fail (fs : FileSystem) (x : Extractor)
    (index : Indexer) (params : GotoDefinitionParams) (c : String)
    (hitem : x params.uri params.pos = some (M2Item.Class c) ∨
      (∃ mem, x params.uri params.pos = some (M2Item.Method c mem)) ∨
      (∃ mem, x params.uri params.pos = some (M2Item.Const c mem)))
    (hfail : (get_php_class_from_class_name fs index c).1 = none) :
    (get_location_from_params fs x index params).1 = none := by
  unfold get_location_from_params
  rcases hitem with hx | ⟨mem, hx⟩ | ⟨mem, hx⟩
  · rw [hx]
    dsimp only
    split
    · next idx heq => rfl
    · next phpclass idx heq => rw [heq] at hfail; simp at hfail
  · rw [hx]
    dsimp only
    split
    · next idx heq => rfl
    · next phpclass idx heq => rw [heq] at hfail; simp at hfail
  · rw [hx]
    dsimp only
    split
    · next idx heq => rfl
    · next phpclass idx heq => rw [heq] at hfail; simp at hfail

/-- Claim C6: every `GotoDefinition` request is answered with a successful
response (`error` empty) carrying an array of at most one location; a
dispatcher failure yields exactly the empty array and a dispatcher success
exactly a one-element array; in particular an unrecognized cursor position,
and every class-resolution failure (LookupMiss, FileMissing, ParseFailure
all surface as `get_php_class_from_class_name` returning no table), are
answered with the empty array — never a protocol-level error. -/
theorem failures_absorbed_as_empty_success :
    ∀ (fs : FileSystem) (x : Extractor) (index : Indexer)
      (params : GotoDefinitionParams),
      (handle_goto_definition fs x index params).1.error = none ∧
      (∃ locs,
        (handle_goto_definition fs x index params).1.result = some locs ∧
        locs.length ≤ 1) ∧
      ((get_location_from_params fs x index params).1 = none →
        (handle_goto_definition fs x index params).1.result = some []) ∧
      (∀ loc, (get_location_from_params fs x index params).1 = some loc →
        (handle_goto_definition fs x index params).1.result = some [loc]) ∧
      (x params.uri params.pos = none →
        (handle_goto_definition fs x index params).1.result = some []) ∧
      (∀ c,
        (x params.uri params.pos = some (M2Item.Class c) ∨
         (∃ mem, x params.uri params.pos = some (M2Item.Method c mem)) ∨
         (∃ mem, x params.uri params.pos = some (M2Item.Const c mem))) →
        (get_php_class_from_class_name fs index c).1 = none →
        (handle_goto_definition fs x index params).1.result = some []) := by
  intro fs x index params
  have hnone : (get_location_from_params fs x index params).1 = none →
      (handle_goto_definition fs x index params).1.result = some [] := by
    intro h0
    unfold handle_goto_definition
    cases hg : get_location_from_params fs x index params with
    | mk opt idx =>
      rw [hg] at h0
      have h1 : opt = none := h0
      subst h1
      rfl
  have hsome : ∀ loc,
      (get_location_from_params fs x index params).1 = some loc →
      (handle_goto_definition fs x index params).1.result = some [loc] := by
    intro loc h0
    unfold handle_goto_definition
    cases hg : get_location_from_params fs x index params with
    | mk opt idx =>
      rw [hg] at h0
      have h1 : opt = some loc := h0
      subst h1
      rfl
  have herr : (handle_goto_definition fs x index params).1.error = none := by
    unfold handle_goto_definition
    cases hg : get_location_from_params fs x index params with
    | mk opt idx => cases opt <;> rfl
  have hcard : ∃ locs,
      (handle_goto_definition fs x index params).1.result = some locs ∧
      locs.length ≤ 1 := by
    cases hg : (get_location_from_params fs x index params).1 with
    | none => exact ⟨[], hnone hg, by simp⟩
    | some loc => exact ⟨[loc], hsome loc hg, by simp⟩
  refine ⟨herr, hcard, hnone, hsome, ?_, ?_⟩
  · intro hx
    apply hnone
    unfold get_location_from_params
    rw [hx]
  · intro c hitem hfail
    exact hnone (get_location_none_of_class_fail fs x index params c
      hitem hfail)

/-- Witness for C6: a method reference on a class whose candidate file is
missing (a FileMissing failure) is answered with the empty array. -/
theorem failures_absorbed_as_empty_success_witness :
    (handle_goto_definition wFsDeleted wXmlMethodMiss wIdx0 wParams).1.result
      = some [] :=
  (failures_absorbed_as_empty_success wFsDeleted wXmlMethodMiss wIdx0
      wParams).2.2.2.2.2 "Vendor\\Module\\Helper"
    (Or.inr (Or.inl ⟨"missingMethod", rfl⟩)) (by decide)

/-- Claim C8: handling a definition query leaves the module registry
unchanged, both at the dispatcher and after response shaping; only the
class cache may change. -/
theorem registry_read_only_on_request_path :
    ∀ (fs : FileSystem) (x : Extractor) (index : Indexer)
      (params : GotoDefinitionParams),
      ((get_location_from_params fs x index params).2).magento_modules
          = index.magento_modules ∧
      ((handle_goto_definition fs x index params).2).magento_modules
          = index.magento_modules := by
  intro fs x index params
  refine ⟨get_location_modules_frame fs x index params, ?_⟩
  unfold handle_goto_definition
  cases h : get_location_from_params fs x index params with
  | mk opt idx =>
    have hm := get_location_modules_frame fs x index params
    rw [h] at hm
    cases opt with
    | none => simpa using hm
    | some loc => simpa using hm

/-- Claim C10: whenever a definition query returns a location, the location
points into the resolved class's file — its URI is the Symbol Table's URI,
in the bare-class case and in both member-fallback cases alike. -/
theorem fallback_preserves_target_uri :
    ∀ (fs : FileSystem) (x : Extractor) (index : Indexer)
      (params : GotoDefinitionParams) (loc : Location) (idx2 : Indexer),
      get_location_from_params fs x index params = (some loc, idx2) →
      ∃ c p idx,
        get_php_class_from_class_name fs index c = (some p, idx) ∧
        loc.uri = p.uri ∧
        (x params.uri params.pos = some (M2Item.Class c) ∨
         (∃ mem, x params.uri params.pos = some (M2Item.Method c mem)) ∨
         (∃ mem, x params.uri params.pos = some (M2Item.Const c mem))) := by
  intro fs x index params loc idx2 h
  unfold get_location_from_params at h
  cases hx : x params.uri params.pos with
  | none => rw [hx] at h; simp at h
  | some item =>
    rw [hx] at h
    cases item with
    | Class c =>
      dsimp only at h
      split at h
      · next idx heq => simp at h
      · next phpclass idx heq =>
        simp only [Option.some.injEq, Prod.mk.injEq] at h
        refine ⟨c, phpclass, idx, heq, ?_, Or.inl rfl⟩
        rw [← h.1]
    | Method c mem =>
      dsimp only at h
      split at h
      · next idx heq => simp at h
      · next phpclass idx heq =>
        simp only [Option.some.injEq, Prod.mk.injEq] at h
        refine ⟨c, phpclass, idx, heq, ?_, Or.inr (Or.inl ⟨mem, rfl⟩)⟩
        rw [← h.1]
    | Const c mem =>
      dsimp only at h
      split at h
      · next idx heq => simp at h
      · next phpclass idx heq =>
        simp only [Option.some.injEq, Prod.mk.injEq] at h
        refine ⟨c, phpclass, idx, heq, ?_, Or.inr (Or.inr ⟨mem, rfl⟩)⟩
        rw [← h.1]

/-- Witness for C10: the fallback case of a method reference still targets
the resolved class's file URI. -/
theorem fallback_preserves_target_uri_witness :
    ∃ c p idx,
      get_php_class_from_class_name wFsDeleted wIdx1 c = (some p, idx) ∧
      (Location.mk "file:///a/Helper.php" wClass.range).uri = p.uri ∧
      (wXmlMethodMiss wParams.uri wParams.pos = some (M2Item.Class c) ∨
       (∃ mem, wXmlMethodMiss wParams.uri wParams.pos
           = some (M2Item.Method c mem)) ∨
       (∃ mem, wXmlMethodMiss wParams.uri wParams.pos
           = some (M2Item.Const c mem))) :=
  fallback_preserves_target_uri wFsDeleted wXmlMethodMiss wIdx1 wParams
    ⟨"file:///a/Helper.php", wClass.range⟩ wIdx2 (by decide)
